import Mathlib

/-!
Verification of the neo4rs bolt driver core: a shallow embedding of the
PULL/DISCARD request builders, the PackStream-level serialization of their
extra dictionaries, the structure deserialization visitors, path traversal,
and the row-streaming engine, together with theorems settling the frozen
claims about the natural-language specification.
-/

namespace Neo4rs

/-- Deserialization errors raised by the visitors in `bolt/structs/de.rs`. -/
inductive DeErr
  | duplicateField (name : String)
  | custom (msg : String)
  | invalidType (msg : String)
  deriving Repr, DecidableEq

/-- Driver errors (`Error` in `errors.rs`), restricted to the variants the
claims touch: server failure, unexpected message, integer overflow on
encode, and an I/O error standing for a closed connection. -/
inductive Err
  | failure (code message msg : String)
  | unexpectedMessage (msg : String)
  | integerOverflow (field : String)
  | ioError
  deriving Repr, DecidableEq

/-! ## PULL / DISCARD requests (`bolt/pull.rs`, `bolt/discard.rs`) -/

/-- The `extra` dictionary of a PULL or DISCARD request: the record count `n`
and the optional query id `qid` (`Extra` in `bolt/pull.rs` / `bolt/discard.rs`). -/
structure Extra where
  n : Int
  qid : Option Int
  deriving Repr, DecidableEq

/-- Model of `Pull` request (`bolt/pull.rs`). -/
structure Pull where
  extra : Extra
  deriving Repr, DecidableEq

/-- Model of `Discard` request (`bolt/discard.rs`). -/
structure Discard where
  extra : Extra
  deriving Repr, DecidableEq

/-- Model of `Pull::new`: `let n = how_many.filter(|i| *i >= 0).unwrap_or(-1)`. -/
def Pull.new (howMany : Option Int) (qid : Option Int) : Pull :=
  { extra := { n := (Option.filter (fun i => decide (0 ≤ i)) howMany).getD (-1), qid := qid } }

/-- Model of `Pull::all()`. -/
def Pull.all : Pull := Pull.new none none

/-- Model of `Pull::some(n: u32)`; the `u32` argument is modelled as a `Nat`
(converted to `i64` via `i64::from`). -/
def Pull.some (n : Nat) : Pull := Pull.new (Option.some (n : Int)) none

/-- Model of `Pull::many(n)`: a `try_into::<i64>` conversion that fails with
`IntegerOverflow` outside the `i64` range, then `Pull::new`. -/
def Pull.many (n : Int) : Except Err Pull :=
  if n < -(2 ^ 63) ∨ 2 ^ 63 ≤ n then .error (.integerOverflow "n")
  else .ok (Pull.new (Option.some n) none)

/-- Model of `Pull::for_query`: sets `extra.qid = Some(query_id)`. -/
def Pull.forQuery (p : Pull) (queryId : Int) : Pull :=
  { p with extra := { p.extra with qid := Option.some queryId } }

/-- Model of `Pull::for_last_query`: `self.for_query(-1)`. -/
def Pull.forLastQuery (p : Pull) : Pull := p.forQuery (-1)

/-- Model of `Discard::new`: `let n = how_many.filter(|i| *i >= 0).unwrap_or(-1)`. -/
def Discard.new (howMany : Option Int) (qid : Option Int) : Discard :=
  { extra := { n := (Option.filter (fun i => decide (0 ≤ i)) howMany).getD (-1), qid := qid } }

/-- Model of `Discard::all()`. -/
def Discard.all : Discard := Discard.new none none

/-- Model of `Discard::some(n: u32)`. -/
def Discard.some (n : Nat) : Discard := Discard.new (Option.some (n : Int)) none

/-- Model of `Discard::many(n: u64)`: `i64::try_from` fails with `IntegerOverflow`
above `i64::MAX`; the `u64` argument is modelled as a `Nat`. -/
def Discard.many (n : Nat) : Except Err Discard :=
  if 2 ^ 63 ≤ n then .error (.integerOverflow "n")
  else .ok (Discard.new (Option.some (n : Int)) none)

/-- Model of `Discard::for_query`: sets `extra.qid = Some(query_id)`. -/
def Discard.forQuery (d : Discard) (queryId : Int) : Discard :=
  { d with extra := { d.extra with qid := Option.some queryId } }

/-- Model of `Discard::for_last_query`: `self.for_query(-1)`. -/
def Discard.forLastQuery (d : Discard) : Discard := d.forQuery (-1)

/-- The serde serialization of `Extra` as an ordered list of map entries:
field `n` always, field `qid` skipped exactly when it is `None`
(`#[serde(skip_serializing_if = "Option::is_none")]`). -/
def Extra.entries (e : Extra) : List (String × Int) :=
  ("n", e.n) :: (match e.qid with
    | Option.some q => [("qid", q)]
    | Option.none => [])

/-! ## PackStream byte-level encoding

Modelled from the spec: the byte-level PackStream serializer lives in
`bolt/packstream/ser.rs`, which is not part of the provided sources; the
encoding below follows the spec's section 4.1 marker grammar (minimal-width
markers for integers, tiny/sized strings and maps, `0xB<count>` structure
headers followed by one tag byte). Bytes are `Nat` values below 256. -/

/-- Big-endian bytes of `v`, exactly `k` bytes wide. -/
def beBytes (k : Nat) (v : Nat) : List Nat :=
  (List.range k).map (fun j => v / 256 ^ (k - 1 - j) % 256)

/-- Modelled from the spec: minimal-marker integer encoding
(tiny int for −16..127, then `0xC8`/`0xC9`/`0xCA`/`0xCB` with the value in
big-endian two's complement). -/
def encodeInt (i : Int) : List Nat :=
  if -16 ≤ i ∧ i ≤ 127 then [((i % 256).toNat)]
  else if -128 ≤ i ∧ i ≤ 127 then [0xC8, (i % 256).toNat]
  else if -(2 ^ 15) ≤ i ∧ i < 2 ^ 15 then 0xC9 :: beBytes 2 ((i % 2 ^ 16).toNat)
  else if -(2 ^ 31) ≤ i ∧ i < 2 ^ 31 then 0xCA :: beBytes 4 ((i % 2 ^ 32).toNat)
  else 0xCB :: beBytes 8 ((i % 2 ^ 64).toNat)

/-- UTF-8 bytes of a string, as `Nat` values. -/
def strBytes (s : String) : List Nat := s.toUTF8.data.toList.map (fun b => b.toNat)

/-- Modelled from the spec: minimal-marker string encoding (tiny string
`0x80 + len` for lengths up to 15, then `0xD0`/`0xD1`/`0xD2`). -/
def encodeString (s : String) : List Nat :=
  let bs := strBytes s
  let len := bs.length
  (if len ≤ 15 then [0x80 + len]
   else if len < 2 ^ 8 then [0xD0, len]
   else if len < 2 ^ 16 then 0xD1 :: beBytes 2 len
   else 0xD2 :: beBytes 4 len) ++ bs

/-- Modelled from the spec: minimal-marker map header (tiny map `0xA0 + n`
for up to 15 entries, then `0xD8`/`0xD9`/`0xDA`). -/
def encodeMapHeader (n : Nat) : List Nat :=
  if n ≤ 15 then [0xA0 + n]
  else if n < 2 ^ 8 then [0xD8, n]
  else if n < 2 ^ 16 then 0xD9 :: beBytes 2 n
  else 0xDA :: beBytes 4 n

/-- Encoding of an `Extra` dictionary: map header, then each entry as a
string key followed by an integer value. -/
def Extra.encode (e : Extra) : List Nat :=
  encodeMapHeader e.entries.length ++
    e.entries.flatMap (fun kv => encodeString kv.1 ++ encodeInt kv.2)

/-- Model of `Serialize for Discard`: `serialize_newtype_variant("Request", 0x2F,
"DISCARD", &self.extra)`, a structure of one field with tag `0x2F`. -/
def Discard.toBytes (d : Discard) : List Nat := 0xB1 :: 0x2F :: d.extra.encode

/-- Model of `Serialize for Pull`: `serialize_newtype_variant("Request", 0x3F,
"PULL", &self.extra)`, a structure of one field with tag `0x3F`. -/
def Pull.toBytes (p : Pull) : List Nat := 0xB1 :: 0x3F :: p.extra.encode

/-! ## Dictionary visitors (`bolt/structs/de.rs`)

A decoded PackStream dictionary is presented to a visitor as the ordered
sequence of its (key, value) entries; the value slot is a type parameter. -/

/-- Model of `HashMap::insert` semantics on an association list: replace the value
when the key is present, append otherwise. -/
def hashMapInsert {V : Type} (m : List (String × V)) (k : String) (v : V) :
    List (String × V) :=
  if m.any (fun p => p.1 = k) then
    m.map (fun p => if p.1 = k then (k, v) else p)
  else m ++ [(k, v)]

/-- Model of `Bolt Vis::visit_map` (`de.rs` lines 67-79): fold the entry stream into
a `HashMap` with `items.insert(key, value)`; no duplicate-key check. -/
def boltVisitMap {V : Type} (entries : List (String × V)) :
    Except DeErr (List (String × V)) :=
  .ok (entries.foldl (fun m kv => hashMapInsert m kv.1 kv.2) [])

/-- The entry loop of `Single Vis::visit_map` (`de.rs` lines 247-263):
walk the entries, remember the value of the named field, error with
`duplicate field` when the named field is seen a second time, skip other
fields. `acc` is the `value` local. -/
def singleGo {V : Type} (key : String) (acc : Option V) :
    List (String × V) → Except DeErr (Option V)
  | [] => .ok acc
  | (k, v) :: rest =>
    if k = key then
      match acc with
      | Option.some _ => .error (.duplicateField key)
      | Option.none => singleGo key (Option.some v) rest
    else singleGo key acc rest

/-- Model of `Single Vis::visit_map`: seeded single-field decode of a dictionary. -/
def singleVisitMap {V : Type} (key : String) (entries : List (String × V)) :
    Except DeErr (Option V) :=
  singleGo key Option.none entries

/-! ## Structure tag dispatch (`Bolt Vis::visit_enum`, `de.rs` lines 81-107) -/

/-- Outcome of dispatching on a structure tag byte: decode a Node, diverge
with a `todo!(name)` panic, or report an invalid-type error. -/
inductive TagDispatch
  | decodeNode
  | unimplemented (name : String)
  | invalidTag
  deriving Repr, DecidableEq

/-- The tag match of `Bolt Vis::visit_enum`: only `0x4E` (Node) is decoded;
every other tag of the data model hits a `todo!` panic; a tag outside the
table is an `invalid_type` error. -/
def boltVisitEnumDispatch (tag : Nat) : TagDispatch :=
  if tag = 0x4E then .decodeNode
  else if tag = 0x52 then .unimplemented "Relationship"
  else if tag = 0x72 then .unimplemented "UnboundRelationship"
  else if tag = 0x50 then .unimplemented "Path"
  else if tag = 0x44 then .unimplemented "Date"
  else if tag = 0x54 then .unimplemented "Time"
  else if tag = 0x74 then .unimplemented "LocalTime"
  else if tag = 0x49 then .unimplemented "DateTime"
  else if tag = 0x69 then .unimplemented "DateTimeZoneId"
  else if tag = 0x64 then .unimplemented "LocalDateTime"
  else if tag = 0x45 then .unimplemented "Duration"
  else if tag = 0x58 then .unimplemented "Point2D"
  else if tag = 0x59 then .unimplemented "Point3D"
  else if tag = 0x46 then .unimplemented "Legacy DateTime"
  else if tag = 0x66 then .unimplemented "Legacy DateTimeZoneId"
  else .invalidTag

/-- The tags of the data model that hit a `todo!` in `visit_enum`. -/
def todoTags : List Nat :=
  [0x52, 0x72, 0x50, 0x44, 0x54, 0x74, 0x49, 0x69, 0x64, 0x45, 0x58, 0x59, 0x46, 0x66]

/-! ## Deferred property decoding (`bolt/packstream`, `node.rs`, `urel.rs`)

Modelled from the spec: `packstream::Data` (not part of the provided
sources) is a raw byte slice holding an encoded dictionary together with a
read cursor; per spec section 9, callers may walk the map multiple times by
rewinding the cursor to zero, and the cursor is reset before every decode.
The encoded dictionary is modelled by its ordered (key, value) entries and
the cursor by an entry index. -/

structure Data (V : Type) where
  entries : List (String × V)
  pos : Nat
  deriving Repr, DecidableEq

/-- Model of `Data::reset`: rewind the read cursor to zero. -/
def Data.reset {V : Type} (d : Data V) : Data V := { d with pos := 0 }

/-- Modelled from the spec: `packstream::from_bytes_seed` with a
`Single::new(key)` seed reads the dictionary that starts at the cursor
(the entries from `pos` on), leaving the cursor at the end of the data;
the visitor logic is `Single Vis::visit_map` from `de.rs`. -/
def fromBytesSeedSingle {V : Type} (key : String) (d : Data V) :
    Except DeErr (Option V) × Data V :=
  (singleVisitMap key (d.entries.drop d.pos), { d with pos := d.entries.length })

/-- Model of `NodeRef` (`node.rs`): id, labels, deferred properties, optional
element id (protocol v5). -/
structure NodeData (V : Type) where
  id : Nat
  labels : List String
  properties : Data V
  elementId : Option String
  deriving Repr, DecidableEq

instance {V : Type} : Inhabited (NodeData V) :=
  ⟨{ id := 0, labels := [], properties := { entries := [], pos := 0 }, elementId := Option.none }⟩

/-- Model of `NodeRef::get` (`node.rs` lines 52-58): reset the property cursor, then
run the seeded single-field decode; returns the decode result and the node
with its moved cursor. -/
def NodeData.get {V : Type} (n : NodeData V) (key : String) :
    Except DeErr (Option V) × NodeData V :=
  let r := fromBytesSeedSingle key n.properties.reset
  (r.1, { n with properties := r.2 })

/-- Model of `UnboundRelationshipRef` (`urel.rs`): id, type, deferred properties,
optional element id. -/
structure URelData (V : Type) where
  id : Nat
  typ : String
  properties : Data V
  elementId : Option String
  deriving Repr, DecidableEq

instance {V : Type} : Inhabited (URelData V) :=
  ⟨{ id := 0, typ := "", properties := { entries := [], pos := 0 }, elementId := Option.none }⟩

/-- Model of `UnboundRelationshipRef::get` (`urel.rs`): same as `NodeRef::get`. -/
def URelData.get {V : Type} (r : URelData V) (key : String) :
    Except DeErr (Option V) × URelData V :=
  let x := fromBytesSeedSingle key r.properties.reset
  (x.1, { r with properties := x.2 })

/-- Model of `RelationshipRef` (`rel.rs`): a bound relationship. -/
structure RelData (V : Type) where
  id : Nat
  startNodeId : Nat
  endNodeId : Nat
  typ : String
  properties : Data V
  elementId : Option String
  startNodeElementId : Option String
  endNodeElementId : Option String
  deriving Repr, DecidableEq

instance {V : Type} : Inhabited (RelData V) :=
  ⟨{ id := 0, startNodeId := 0, endNodeId := 0, typ := "",
     properties := { entries := [], pos := 0 }, elementId := Option.none,
     startNodeElementId := Option.none, endNodeElementId := Option.none }⟩

/-- Model of `UnboundRelationshipRef::bind` via `Relationship::from_other_rel`
(`urel.rs` lines 98-115, `rel.rs` lines 130-150). -/
def URelData.bind {V : Type} (r : URelData V) (startNodeId : Nat)
    (startNodeElementId : Option String) (endNodeId : Nat)
    (endNodeElementId : Option String) : RelData V :=
  { id := r.id, startNodeId := startNodeId, endNodeId := endNodeId,
    typ := r.typ, properties := r.properties, elementId := r.elementId,
    startNodeElementId := startNodeElementId,
    endNodeElementId := endNodeElementId }

/-! ## Path traversal (`bolt/structs/path.rs`) -/

/-- Model of `PathRef`: nodes, unbound relationships, traversal indices. -/
structure PathData (V : Type) where
  nodes : List (NodeData V)
  rels : List (URelData V)
  indices : List Int
  deriving Repr, DecidableEq

/-- Model of `indices.chunks_exact(2)`: consecutive `(rel_index, next_node_index)`
pairs; a trailing odd element is dropped. -/
def chunksExact2 : List Int → List (Int × Int)
  | a :: b :: rest => (a, b) :: chunksExact2 rest
  | _ => []

/-- Model of `NodesIter::extract_node_index`: `usize::try_from(node_index)` panics
on a negative value, modelled as `none`. -/
def extractNodeIndex (c : Int × Int) : Option Nat :=
  if 0 ≤ c.2 then Option.some c.2.toNat else Option.none

/-- Model of `PathRef::nodes` via `NodesIter::next` (`path.rs` lines 219-230):
emit `nodes[0]` first, then `nodes[pair.2]` for each index pair. An
out-of-bounds or negative index is a panic, modelled as `none`. -/
def pathNodesEnum {V : Type} (p : PathData V) : Option (List (NodeData V)) := do
  let first ← p.nodes[0]?
  let rest ← (chunksExact2 p.indices).mapM (fun c => do
    let i ← extractNodeIndex c
    p.nodes[i]?)
  pure (first :: rest)

/-- A path segment (`Segment` in `path.rs`). -/
structure SegmentData (V : Type) where
  start : NodeData V
  relationship : RelData V
  endNode : NodeData V
  deriving Repr, DecidableEq

/-- Model of `SegmentsIter::extract_segment` (`path.rs` lines 120-161): for the pair
`(rel_index, next_node_index)` with the previously visited node index
`lastNode`, bind `rels[rel_index.abs - 1]` forwards when `rel_index` is
positive and backwards when negative; a zero `rel_index` is an assertion
failure, and index panics are modelled as `none`. Returns the segment and
the new `last_node`. -/
def extractSegment {V : Type} (nodes : List (NodeData V))
    (rels : List (URelData V)) (lastNode : Nat) (c : Int × Int) :
    Option (SegmentData V × Nat) := do
  let nextNodeIndex ← extractNodeIndex c
  let relIndex := c.1
  if relIndex = 0 then
    Option.none
  else
    let ids : Nat × Nat × Nat :=
      if 0 < relIndex then (relIndex.toNat, lastNode, nextNodeIndex)
      else (relIndex.natAbs, nextNodeIndex, lastNode)
    let rIdx := ids.1 - 1
    let startNode ← nodes[ids.2.1]?
    let endNode ← nodes[ids.2.2]?
    let rel ← rels[rIdx]?
    let bound := rel.bind startNode.id startNode.elementId endNode.id endNode.elementId
    let segStart ← nodes[lastNode]?
    let segEnd ← nodes[nextNodeIndex]?
    pure ({ start := segStart, relationship := bound, endNode := segEnd }, nextNodeIndex)

/-- Model of `SegmentsIter::next` iterated over all index pairs, threading
`last_node` (initial value 0). -/
def segmentsFrom {V : Type} (nodes : List (NodeData V))
    (rels : List (URelData V)) (lastNode : Nat) :
    List (Int × Int) → Option (List (SegmentData V))
  | [] => Option.some []
  | c :: cs => do
    let x ← extractSegment nodes rels lastNode c
    let rest ← segmentsFrom nodes rels x.2 cs
    pure (x.1 :: rest)

/-- Model of `PathRef::segments`: all segments, starting from node index 0. -/
def pathSegments {V : Type} (p : PathData V) : Option (List (SegmentData V)) :=
  segmentsFrom p.nodes p.rels 0 (chunksExact2 p.indices)

/-- Model of `Deserialize for PathRef` (`path.rs` lines 297-314): after the struct
visitor, reject an empty node list and an odd index list. -/
def pathRefDeserialize {V : Type} (p : PathData V) : Except DeErr (PathData V) :=
  if p.nodes.isEmpty then .error (.custom "must have at least one node")
  else if p.indices.length % 2 ≠ 0 then .error (.custom "indices must be even")
  else .ok p

/-- Well-formedness of a path per the spec: at least one node, an even
index list, and every pair in range (`rel_index` non-zero with
`|rel_index| - 1` a valid relationship index, `next_node_index`
non-negative and a valid node index). -/
def PathWF {V : Type} (p : PathData V) : Prop :=
  p.nodes ≠ [] ∧ p.indices.length % 2 = 0 ∧
    ∀ c ∈ chunksExact2 p.indices,
      c.1 ≠ 0 ∧ c.1.natAbs - 1 < p.rels.length ∧
        0 ≤ c.2 ∧ c.2.toNat < p.nodes.length

/-- Claim-side description of the node enumeration: the spec's words
"nodes enumerated in traversal order are nodes[0], nodes[indices[1]],
nodes[indices[3]], ...". -/
def specPathNodes {V : Type} (p : PathData V) : List (NodeData V) :=
  p.nodes.getD 0 default ::
    (List.range (p.indices.length / 2)).map
      (fun k => p.nodes.getD ((p.indices.getD (2 * k + 1) 0).toNat) default)

/-- Claim-side description of the segments: for each consecutive index pair
`(r, ni)`, bind `rels[|r| - 1]` with start the previously visited node and
end `nodes[ni]` when `r` is positive, and with start and end swapped when
`r` is negative; the segment itself runs from the previously visited node
to `nodes[ni]`, which becomes the new previously-visited node. -/
def specSegsFrom {V : Type} (nodes : List (NodeData V))
    (rels : List (URelData V)) (prev : Nat) :
    List (Int × Int) → List (SegmentData V)
  | [] => []
  | (r, ni) :: cs =>
    let niN := ni.toNat
    let prevNode := nodes.getD prev default
    let nextNode := nodes.getD niN default
    let rel := rels.getD (r.natAbs - 1) default
    let bound :=
      if 0 < r then rel.bind prevNode.id prevNode.elementId nextNode.id nextNode.elementId
      else rel.bind nextNode.id nextNode.elementId prevNode.id prevNode.elementId
    { start := prevNode, relationship := bound, endNode := nextNode } ::
      specSegsFrom nodes rels niN cs

/-! ## Row stream engine (`stream.rs`)

The record payload type is `α` and the streaming summary type is `σ`.
Modelled from the spec where noted: the `bolt::Response` / `bolt::Summary` /
`bolt::Streaming` message enums live in `bolt/mod.rs`, which is not part of
the provided sources; they are modelled after the spec's message set
(RECORD detail messages, SUCCESS with `has_more` or a final summary,
FAILURE with code and message, IGNORED). -/

/-- Model of `Streaming`: the metadata of a SUCCESS answering PULL/DISCARD; either
`has_more = true` or the final summary. -/
inductive Streaming (σ : Type)
  | hasMore
  | done (s : σ)
  deriving Repr, DecidableEq

/-- A message received while pulling (`Response<Vec<Bolt>, Streaming>`):
a RECORD detail, a SUCCESS with `Streaming` metadata, a FAILURE, or an
IGNORED. -/
inductive WireMsg (α σ : Type)
  | record (r : α)
  | success (m : Streaming σ)
  | failure (code message : String)
  | ignored
  deriving Repr, DecidableEq

/-- A response to a lone DISCARD (`Summary<Streaming>`). -/
inductive SummaryResp (σ : Type)
  | success (m : Streaming σ)
  | ignored
  | failure (code message : String)
  deriving Repr, DecidableEq

/-- A request dispatched on the connection, reduced to its extra
dictionary. -/
inductive SentReq
  | pullReq (extra : Extra)
  | discardReq (extra : Extra)
  deriving Repr, DecidableEq

/-- Model of `State` (`stream.rs` lines 485-490). -/
inductive StreamState (σ : Type)
  | ready
  | pulling
  | complete (s : Option σ)
  deriving Repr, DecidableEq

/-- A row as handed to the consumer: the stream's fields together with the
record (`Row::new(self.fields.clone(), record)`). -/
structure RowData (α : Type) where
  fields : List String
  record : α
  deriving Repr, DecidableEq

/-- Model of `RowItem` (`stream.rs` lines 36-40). -/
inductive RowItem (α σ : Type)
  | row (r : RowData α)
  | summary (s : σ)
  | done
  deriving Repr, DecidableEq

/-- Model of `RowStream` (`stream.rs` lines 18-24): qid, fields, state, fetch size
and the FIFO row buffer (front at the head). -/
structure RowStream (α σ : Type) where
  qid : Int
  fields : List String
  state : StreamState σ
  fetchSize : Nat
  buffer : List (RowData α)
  deriving Repr, DecidableEq

/-- Model of `RowStream::new`: state `Ready`, empty buffer. -/
def RowStream.new (α σ : Type) (qid : Int) (fields : List String)
    (fetchSize : Nat) : RowStream α σ :=
  { qid := qid, fields := fields, state := .ready, fetchSize := fetchSize, buffer := [] }

/-- The connection, seen from the stream: the queue of incoming server
messages and the log of dispatched requests. -/
structure Conn (α σ : Type) where
  incoming : List (WireMsg α σ)
  sent : List SentReq
  deriving Repr, DecidableEq

/-- The PULL request the stream sends from `State::Ready`:
`Pull::some(self.fetch_size).for_query(self.qid)`. -/
def streamPull (s : RowStream α σ) : SentReq :=
  .pullReq ((Pull.new (Option.some (s.fetchSize : Int)) Option.none).forQuery s.qid).extra

/-- The `State::Pulling` receive loop of `next_or_summary` (`stream.rs`
lines 116-137), entered with an empty buffer. Each iteration receives one
message:
* RECORD: the row is pushed to the buffer; the next loop iteration pops it
  and returns it, so the buffer stays empty;
* SUCCESS `has_more = true`: state moves to `Ready`; the next iteration
  finds the empty buffer, sends another PULL and is pulling again;
* SUCCESS with the final summary: state moves to `Complete(Some(s))`; the
  next iteration takes the summary and returns it, leaving
  `Complete(None)`;
* FAILURE / IGNORED: `otherwise.into_error("PULL")` is returned
  (`messages.rs` lines 89-98: FAILURE maps to the failure error, anything
  else to an unexpected-message error). -/
def pullingLoop (s : RowStream α σ) (sent : List SentReq) :
    List (WireMsg α σ) → Except Err (RowItem α σ × RowStream α σ × Conn α σ)
  | [] => .error .ioError
  | m :: ms =>
    match m with
    | .record r =>
      .ok (.row { fields := s.fields, record := r },
        { s with state := .pulling, buffer := [] },
        { incoming := ms, sent := sent })
    | .success .hasMore =>
      pullingLoop { s with state := .pulling, buffer := [] }
        (sent ++ [streamPull s]) ms
    | .success (.done sum) =>
      .ok (.summary sum,
        { s with state := .complete Option.none, buffer := [] },
        { incoming := ms, sent := sent })
    | .failure code message => .error (.failure code message "PULL")
    | .ignored => .error (.unexpectedMessage "PULL")

/-- Model of `RowStream::next_or_summary` (`stream.rs` lines 103-147). The loop
first pops the buffer; with an empty buffer it dispatches on the state:
`Ready` sends `PULL{n = fetch_size, qid}` and starts pulling, `Pulling`
receives messages (see `pullingLoop`), `Complete(Some(s))` takes the
summary, `Complete(None)` is `Done`. -/
def nextOrSummary (s : RowStream α σ) (c : Conn α σ) :
    Except Err (RowItem α σ × RowStream α σ × Conn α σ) :=
  match s.buffer with
  | r :: rest => .ok (.row r, { s with buffer := rest }, c)
  | [] =>
    match s.state with
    | .ready =>
      pullingLoop { s with state := .pulling, buffer := [] }
        (c.sent ++ [streamPull s]) c.incoming
    | .pulling => pullingLoop { s with buffer := [] } c.sent c.incoming
    | .complete (Option.some sum) =>
      .ok (.summary sum, { s with state := .complete Option.none }, c)
    | .complete Option.none => .ok (.done, s, c)

/-- Runs `k` successive calls to `next_or_summary`, collecting the returned
items; the first error aborts the run. -/
def collectItems : Nat → RowStream α σ → Conn α σ →
    Except Err (List (RowItem α σ))
  | 0, _, _ => .ok []
  | k + 1, s, c =>
    match nextOrSummary s c with
    | .error e => .error e
    | .ok x =>
      match collectItems k x.2.1 x.2.2 with
      | .error e => .error e
      | .ok rest => .ok (x.1 :: rest)

/-- Model of `RowStream::finish` (`stream.rs` lines 151-181): while the state is not
`Complete`, send `Discard::all().for_query(self.qid)` and process the
response; SUCCESS with the final summary completes with it, SUCCESS
`has_more` loops (sending another DISCARD), IGNORED completes without a
summary, FAILURE completes without a summary and surfaces the error.
Returns the summary result, the final stream and the requests sent. -/
def finishLoop (s : RowStream α σ) (resps : List (SummaryResp σ))
    (sent : List SentReq) :
    Except Err (Option σ) × RowStream α σ × List SentReq :=
  match s.state with
  | .complete os => (.ok os, s, sent)
  | _ =>
    let sent := sent ++ [.discardReq (Discard.all.forQuery s.qid).extra]
    match resps with
    | [] => (.error .ioError, s, sent)
    | r :: rest =>
      match r with
      | .success (.done sum) =>
        finishLoop { s with state := .complete (Option.some sum) } rest sent
      | .success .hasMore => finishLoop s rest sent
      | .ignored => finishLoop { s with state := .complete Option.none } rest sent
      | .failure code message =>
        (.error (.failure code message "DISCARD"),
          { s with state := .complete Option.none }, sent)

/-- The whole `finish` call, starting with an empty send log. -/
def finish (s : RowStream α σ) (resps : List (SummaryResp σ)) :
    Except Err (Option σ) × RowStream α σ × List SentReq :=
  finishLoop s resps []

/-- A well-formed wire transcript answering a row stream's PULL requests:
records `rs` in order, interleaved with any number of
SUCCESS-`has_more = true` messages, terminated by a single SUCCESS carrying
the summary `sum`. -/
inductive Transcript (α σ : Type) : List (WireMsg α σ) → List α → σ → Prop
  | done (s : σ) : Transcript α σ [.success (.done s)] [] s
  | record (r : α) {t : List (WireMsg α σ)} {rs : List α} {s : σ} :
      Transcript α σ t rs s → Transcript α σ (.record r :: t) (r :: rs) s
  | hasMore {t : List (WireMsg α σ)} {rs : List α} {s : σ} :
      Transcript α σ t rs s → Transcript α σ (.success .hasMore :: t) rs s

/-- The items the claim expects from `k` calls: the rows in server order,
then the summary once, then `Done` forever. -/
def expectedItems (fields : List String) : List α → σ → Nat → List (RowItem α σ)
  | _, _, 0 => []
  | [], s, k + 1 => .summary s :: List.replicate k .done
  | r :: rs, s, k + 1 =>
    .row { fields := fields, record := r } :: expectedItems fields rs s k

/-! ## Theorems -/

/-- C10: serializing a Discard request with count 42 targeting query 1
produces exactly the bytes `B1 2F A2 81 6E 2A 83 71 69 64 01`: a structure
of one field with tag 0x2F containing a map of two entries, "n" to 42 and
"qid" to 1. -/
theorem thm_C10_discard_bytes :
    ((Discard.some 42).forQuery 1).toBytes =
      [0xB1, 0x2F, 0xA2, 0x81, 0x6E, 0x2A, 0x83, 0x71, 0x69, 0x64, 0x01] := by
  decide

/-- C2 counterexample: the caller can pass the non-positive count 0 to
`some` (and to `many`), and the encoded `n` is then 0, not −1 as the claim
requires. -/
theorem cex_C2_zero_count :
    (Pull.some 0).extra.n = 0 ∧ (Discard.some 0).extra.n = 0 ∧
      Discard.many 0 = .ok (Discard.new (Option.some 0) Option.none) ∧
      (Discard.new (Option.some 0) Option.none).extra.n = 0 ∧ (0 : Int) ≠ -1 := by
  refine ⟨rfl, rfl, rfl, rfl, by decide⟩

/-- C2 (amended): for every way of constructing a Pull or Discard request,
the encoded `n` is −1 when the count is unspecified or negative, and equals
the caller's count whenever the count is non-negative (including 0). -/
theorem thm_C2_n_encoding (i : Int) (n : Nat) (q : Option Int) :
    Pull.all.extra.n = -1 ∧ Discard.all.extra.n = -1 ∧
    (Pull.some n).extra.n = (n : Int) ∧ (Discard.some n).extra.n = (n : Int) ∧
    (∀ p, Pull.many i = .ok p → p.extra.n = if 0 ≤ i then i else -1) ∧
    (∀ d, Discard.many n = .ok d → d.extra.n = (n : Int)) ∧
    ((Pull.new (Option.some i) q).extra.n = if 0 ≤ i then i else -1) ∧
    ((Discard.new (Option.some i) q).extra.n = if 0 ≤ i then i else -1) := by
  have hp : ∀ (j : Int) (q' : Option Int), (Pull.new (Option.some j) q').extra.n =
      if 0 ≤ j then j else -1 := by
    intro j q'
    simp only [Pull.new, Option.filter]
    by_cases h : 0 ≤ j <;> simp [h]
  have hd : ∀ (j : Int) (q' : Option Int), (Discard.new (Option.some j) q').extra.n =
      if 0 ≤ j then j else -1 := by
    intro j q'
    simp only [Discard.new, Option.filter]
    by_cases h : 0 ≤ j <;> simp [h]
  refine ⟨rfl, rfl, ?_, ?_, ?_, ?_, hp i q, hd i q⟩
  · simpa [Int.natCast_nonneg, Pull.some] using hp (n : Int) Option.none
  · simpa [Int.natCast_nonneg, Discard.some] using hd (n : Int) Option.none
  · intro p hok
    simp only [Pull.many] at hok
    split at hok
    · exact absurd hok (by simp)
    · cases hok
      exact hp i Option.none
  · intro d hok
    simp only [Discard.many] at hok
    split at hok
    · exact absurd hok (by simp)
    · cases hok
      simpa [Int.natCast_nonneg] using hd (n : Int) Option.none

/-- Witness for C2 (amended): at the concrete inputs −5 and 7 the `n`
field is −1 and 7 respectively, obtained from the theorem. -/
theorem thm_C2_n_encoding_witness :
    (Pull.new (Option.some (-5)) Option.none).extra.n = -1 ∧
    ∀ p, Pull.many 7 = .ok p → p.extra.n = 7 := by
  constructor
  · have h := (thm_C2_n_encoding (-5) 0 Option.none).2.2.2.2.2.2.1
    simpa using h
  · intro p hok
    have h := (thm_C2_n_encoding 7 0 Option.none).2.2.2.2.1 p hok
    simpa using h

/-- C3 counterexample: `for_last_query` sets `qid = Some(-1)` and the
serialized extra dictionary then contains the entry `"qid" → −1` instead of
omitting it. -/
theorem cex_C3_last_query_encoded :
    (Discard.all.forLastQuery).extra.entries = [("n", -1), ("qid", -1)] ∧
    (Pull.all.forLastQuery).extra.entries = [("n", -1), ("qid", -1)] := by
  exact ⟨rfl, rfl⟩

/-- C3 (amended): the serialized extra dictionary omits `qid` exactly when
no query is targeted (`qid` unset); `for_query` sets `qid` to the given
query id and `for_last_query` sets `qid = −1`, which is then encoded on
the wire as −1 rather than omitted. -/
theorem thm_C3_qid_omission (e : Extra) (p : Pull) (d : Discard) (q : Int) :
    (("qid" ∈ e.entries.map Prod.fst) ↔ e.qid.isSome) ∧
    ((p.forQuery q).extra.qid = Option.some q) ∧
    ((d.forQuery q).extra.qid = Option.some q) ∧
    (p.forLastQuery.extra.qid = Option.some (-1)) ∧
    (d.forLastQuery.extra.qid = Option.some (-1)) ∧
    (("qid", (-1 : Int)) ∈ (d.forLastQuery).extra.entries) := by
  refine ⟨?_, rfl, rfl, rfl, rfl, ?_⟩
  · cases h : e.qid <;> simp [Extra.entries, h]
  · simp [Discard.forLastQuery, Discard.forQuery, Extra.entries]

/-- C4 counterexample: the generic value-tree decode of a dictionary with
the duplicated key "a" returns a value (the last occurrence wins), not an
error. -/
theorem cex_C4_generic_duplicate_ok :
    boltVisitMap [("a", (1 : Int)), ("a", 2)] = .ok [("a", 2)] := by
  rfl

/-- The entry loop of the seeded single-field decode errors exactly when
the named field occurs at least twice beyond what the accumulator already
absorbed. -/
theorem singleGo_error_iff {V : Type} (key : String) (entries : List (String × V)) :
    ∀ acc : Option V,
      (singleGo key acc entries = .error (.duplicateField key) ↔
        (match acc with
          | Option.some _ => 1
          | Option.none => 2) ≤ entries.countP (fun kv => kv.1 == key)) := by
  induction entries with
  | nil =>
    intro acc
    cases acc <;> simp [singleGo]
  | cons kv rest ih =>
    intro acc
    obtain ⟨k, v⟩ := kv
    by_cases hk : k = key
    · subst hk
      cases acc with
      | some v0 =>
        simp [singleGo, List.countP_cons, Nat.le_add_left]
      | none =>
        have h1 : singleGo k Option.none ((k, v) :: rest) = singleGo k (Option.some v) rest := by
          simp [singleGo]
        rw [h1, ih (Option.some v)]
        simp [List.countP_cons]
    · simp only [singleGo, if_neg hk]
      rw [ih acc]
      have hb : ((k, v).1 == key) = false := by simp [hk]
      simp [List.countP_cons, hb]

/-- C4 (amended): a duplicated dictionary key is an error only in the
seeded single-field decode, exactly when the named field occurs at least
twice; the generic value-tree decode never errors on duplicates, folding
the entries into a hash map in which the last occurrence silently wins. -/
theorem thm_C4_duplicate_handling {V : Type} (entries : List (String × V)) (key : String) :
    (∃ m, boltVisitMap entries = .ok m) ∧
    (singleVisitMap key entries = .error (.duplicateField key) ↔
      2 ≤ entries.countP (fun kv => kv.1 == key)) := by
  refine ⟨⟨_, rfl⟩, ?_⟩
  simpa using singleGo_error_iff key entries Option.none

/-- C6: structure decoding into the generic owned value tree is only
implemented for the Node tag 0x4E; every other tag of the data model
diverges with an unimplemented panic, and only a tag outside the table
yields a proper error. -/
theorem thm_C6_tag_dispatch :
    boltVisitEnumDispatch 0x4E = .decodeNode ∧
    (∀ t ∈ todoTags, ∃ m, boltVisitEnumDispatch t = .unimplemented m) ∧
    (∀ t : Nat, t ∉ 0x4E :: todoTags → boltVisitEnumDispatch t = .invalidTag) := by
  refine ⟨rfl, ?_, ?_⟩
  · intro t ht
    fin_cases ht <;> exact ⟨_, rfl⟩
  · intro t ht
    simp only [todoTags, List.mem_cons, List.mem_singleton, not_or] at ht
    obtain ⟨h0, h1, h2, h3, h4, h5, h6, h7, h8, h9, h10, h11, h12, h13, h14⟩ := ht
    simp [boltVisitEnumDispatch, h0, h1, h2, h3, h4, h5, h6, h7, h8, h9, h10,
      h11, h12, h13, h14]

/-- Witness for C6: tag 0x52 (Relationship) hits the unimplemented panic
and tag 0x99 is a proper error. -/
theorem thm_C6_tag_dispatch_witness :
    (∃ m, boltVisitEnumDispatch 0x52 = .unimplemented m) ∧
    boltVisitEnumDispatch 0x99 = .invalidTag := by
  exact ⟨thm_C6_tag_dispatch.2.1 0x52 (by decide), thm_C6_tag_dispatch.2.2 0x99 (by decide)⟩

/-- C9: deserializing a Path fails when the node list is empty or the index
list has odd length; a successfully deserialized path has at least one node
and an even number of indices. -/
theorem thm_C9_path_checks {V : Type} (p p' : PathData V) :
    (pathRefDeserialize p = .ok p' →
      p' = p ∧ p.nodes ≠ [] ∧ p.indices.length % 2 = 0) ∧
    ((p.nodes = [] ∨ p.indices.length % 2 ≠ 0) →
      ∃ e, pathRefDeserialize p = .error e) := by
  constructor
  · intro hok
    simp only [pathRefDeserialize] at hok
    split at hok
    · exact absurd hok (by simp)
    · split at hok
      · exact absurd hok (by simp)
      · cases hok
        refine ⟨rfl, ?_, ?_⟩
        · simpa [List.isEmpty_iff] using ‹¬p.nodes.isEmpty = true›
        · omega
  · intro hbad
    simp only [pathRefDeserialize]
    rcases hbad with hbad | hbad
    · simp [hbad]
    · split
      · exact ⟨_, rfl⟩
      · simp [hbad]

/-- The entry loop of the seeded single-field decode returns its
accumulator untouched when the named field does not occur. -/
theorem singleGo_not_mem {V : Type} (key : String) (entries : List (String × V))
    (h : key ∉ entries.map Prod.fst) :
    ∀ acc : Option V, singleGo key acc entries = .ok acc := by
  induction entries with
  | nil => intro acc; simp [singleGo]
  | cons kv rest ih =>
    intro acc
    obtain ⟨k, v⟩ := kv
    simp only [List.map_cons, List.mem_cons, not_or] at h
    have hk : k ≠ key := fun he => h.1 he.symm
    simp only [singleGo, if_neg hk]
    exact ih h.2 acc

/-- C8: on a deserialized node (or unbound relationship), `get(key)` always
resets the property cursor first, so repeated calls return equal results
regardless of which other fields were decoded before and in which order;
and `get` of an absent key returns `None` rather than an error. -/
theorem thm_C8_deferred_get {V : Type} (n : NodeData V) (r : URelData V)
    (k k' : String) :
    ((n.get k).1 = (((n.get k').2).get k).1) ∧
    ((n.get k).1 = (((n.get k).2).get k).1) ∧
    (k ∉ n.properties.entries.map Prod.fst → (n.get k).1 = .ok Option.none) ∧
    ((r.get k).1 = (((r.get k').2).get k).1) ∧
    (k ∉ r.properties.entries.map Prod.fst → (r.get k).1 = .ok Option.none) := by
  refine ⟨?_, ?_, ?_, ?_, ?_⟩
  · simp [NodeData.get, fromBytesSeedSingle, Data.reset]
  · simp [NodeData.get, fromBytesSeedSingle, Data.reset]
  · intro habs
    simp only [NodeData.get, fromBytesSeedSingle, Data.reset, List.drop_zero,
      singleVisitMap]
    exact singleGo_not_mem k _ habs Option.none
  · simp [URelData.get, fromBytesSeedSingle, Data.reset]
  · intro habs
    simp only [URelData.get, fromBytesSeedSingle, Data.reset, List.drop_zero,
      singleVisitMap]
    exact singleGo_not_mem k _ habs Option.none

/-- Witness for C8: a concrete node with one property "a"; getting "b"
after getting "a" equals getting "b" directly, and "b" is absent so the
result is `None`. -/
theorem thm_C8_deferred_get_witness :
    (((⟨7, [], ⟨[("a", 1)], 0⟩, Option.none⟩ : NodeData Nat).get "b").1 =
      ((((⟨7, [], ⟨[("a", 1)], 0⟩, Option.none⟩ : NodeData Nat).get "a").2).get "b").1) ∧
    (((⟨7, [], ⟨[("a", 1)], 0⟩, Option.none⟩ : NodeData Nat).get "b").1 = .ok Option.none) := by
  have h := thm_C8_deferred_get (⟨7, [], ⟨[("a", 1)], 0⟩, Option.none⟩ : NodeData Nat)
    (⟨7, "T", ⟨[], 0⟩, Option.none⟩ : URelData Nat) "b" "a"
  exact ⟨h.1, h.2.2.1 (by decide)⟩

/-- Witness for C9: the empty path is rejected and a one-node path with no
indices deserializes to itself. -/
theorem thm_C9_path_checks_witness :
    (∃ e, pathRefDeserialize { nodes := ([] : List (NodeData Nat)), rels := [], indices := [] }
      = .error e) ∧
    ((default : NodeData Nat) :: [] ≠ [] ∧ (0 : Nat) % 2 = 0) := by
  constructor
  · exact (thm_C9_path_checks { nodes := ([] : List (NodeData Nat)), rels := [], indices := [] }
      { nodes := [], rels := [], indices := [] }).2 (Or.inl rfl)
  · have h := (thm_C9_path_checks
      { nodes := [(default : NodeData Nat)], rels := [], indices := [] }
      { nodes := [(default : NodeData Nat)], rels := [], indices := [] }).1 rfl
    exact ⟨h.2.1, h.2.2⟩

/-- C5 counterexample: the claim requires `finish` to process the response
"as in the pull loop"; but on an IGNORED response `finish` completes with
`Ok(None)` whereas the pull loop surfaces an unexpected-message error. -/
theorem cex_C5_ignored_divergence :
    (finish (RowStream.new Nat Nat 0 [] 1) [SummaryResp.ignored]).1 = .ok Option.none ∧
    nextOrSummary (RowStream.new Nat Nat 0 [] 1)
        { incoming := [WireMsg.ignored], sent := [] } =
      .error (.unexpectedMessage "PULL") := by
  exact ⟨rfl, rfl⟩

/-- C5 (amended): for a stream not yet `Complete`, `finish` sends exactly
one `DISCARD{n = −1, qid}` when the server's response is terminal, leaves
the stream `Complete`, and returns the received summary; a FAILURE is
surfaced as an error and an IGNORED completes the stream without a summary
and without an error (unlike the pull loop, which errors on IGNORED). A
stream already `Complete` sends no DISCARD and returns its stored
summary. -/
theorem thm_C5_finish {α σ : Type} (s : RowStream α σ) (resps rest : List (SummaryResp σ))
    (sum : σ) (code message : String) :
    (∀ os, s.state = .complete os → finish s resps = (.ok os, s, [])) ∧
    ((∀ os, s.state ≠ .complete os) →
      (finish s (.success (.done sum) :: rest) =
        (.ok (Option.some sum), { s with state := .complete (Option.some sum) },
          [.discardReq { n := -1, qid := Option.some s.qid }])) ∧
      (finish s (.ignored :: rest) =
        (.ok Option.none, { s with state := .complete Option.none },
          [.discardReq { n := -1, qid := Option.some s.qid }])) ∧
      (finish s (.failure code message :: rest) =
        (.error (.failure code message "DISCARD"),
          { s with state := .complete Option.none },
          [.discardReq { n := -1, qid := Option.some s.qid }]))) := by
  obtain ⟨qid, fields, st, fs, buf⟩ := s
  constructor
  · intro os hos
    simp only at hos
    subst hos
    simp [finish, finishLoop.eq_def]
  · intro hnc
    cases st with
    | complete os => exact absurd rfl (hnc os)
    | ready =>
      refine ⟨?_, ?_, ?_⟩ <;>
        simp [finish, finishLoop.eq_def, Discard.all, Discard.new, Discard.forQuery,
          Option.filter]
    | pulling =>
      refine ⟨?_, ?_, ?_⟩ <;>
        simp [finish, finishLoop.eq_def, Discard.all, Discard.new, Discard.forQuery,
          Option.filter]

/-- Witness for C5 (amended): a fresh `Ready` stream with qid 3 finished
against a final-summary response sends one DISCARD and returns the
summary. -/
theorem thm_C5_finish_witness :
    finish (RowStream.new Nat Nat 3 [] 2) [SummaryResp.success (.done 9)] =
      (.ok (Option.some 9),
        { RowStream.new Nat Nat 3 [] 2 with state := .complete (Option.some 9) },
        [.discardReq { n := -1, qid := Option.some 3 }]) := by
  exact ((thm_C5_finish (RowStream.new Nat Nat 3 [] 2) [] [] 9 "" "").2
    (fun os h => by exact absurd h (by simp [RowStream.new]))).1

/-- An in-bounds `getElem?` equals `some` of the `getD` access, for any
default. -/
theorem getElem?_eq_some_getD {β : Type} (l : List β) (i : Nat) (d : β)
    (h : i < l.length) : l[i]? = Option.some (l.getD i d) := by
  rw [List.getElem?_eq_getElem h, List.getD_eq_getElem?_getD,
    List.getElem?_eq_getElem h]
  rfl

/-- Chunking by two halves the length. -/
theorem chunksExact2_length : ∀ l : List Int, (chunksExact2 l).length = l.length / 2
  | [] => rfl
  | [_] => by simp [chunksExact2]
  | _ :: _ :: rest => by
    simp only [chunksExact2, List.length_cons, chunksExact2_length rest]
    omega

/-- Mapping over the second components of the index pairs is the same as
reading the odd positions `indices[1], indices[3], ...`. -/
theorem chunksExact2_map_snd {β : Type} (f : Int → β) :
    ∀ l : List Int, l.length % 2 = 0 →
      (chunksExact2 l).map (fun c => f c.2) =
        (List.range (l.length / 2)).map (fun k => f (l.getD (2 * k + 1) 0))
  | [] => by simp [chunksExact2]
  | [_] => by intro h; simp at h
  | a :: b :: rest => fun h => by
    have h' : rest.length % 2 = 0 := by
      simp only [List.length_cons] at h
      omega
    have hlen : (a :: b :: rest).length / 2 = rest.length / 2 + 1 := by
      simp only [List.length_cons]
      omega
    simp only [chunksExact2, List.map_cons, chunksExact2_map_snd f rest h', hlen,
      List.range_succ_eq_map, List.map_map]
    refine congrArg₂ List.cons rfl (List.map_congr_left ?_)
    intro k _
    simp only [Function.comp_apply]
    have h2 : 2 * (k + 1) + 1 = (2 * k + 1) + 1 + 1 := by ring
    rw [h2, List.getD_cons_succ, List.getD_cons_succ]

/-- A `mapM` over `Option` succeeds pointwise. -/
theorem mapM_option_eq_map {γ β : Type} (f : γ → Option β) (g : γ → β) :
    ∀ l : List γ, (∀ c ∈ l, f c = Option.some (g c)) →
      l.mapM f = Option.some (l.map g)
  | [] => by intro _; rfl
  | c :: cs => fun h => by
    have hc : f c = Option.some (g c) := h c (List.mem_cons_self c cs)
    have hcs := mapM_option_eq_map f g cs (fun x hx => h x (List.mem_cons_of_mem c hx))
    rw [List.mapM_cons, hc, hcs]
    rfl

/-- The segment iterator under well-formed pairs produces exactly the
claim-side segments. -/
theorem segmentsFrom_spec {V : Type} (nodes : List (NodeData V))
    (rels : List (URelData V)) :
    ∀ (cs : List (Int × Int)) (ln : Nat),
      (∀ c ∈ cs, c.1 ≠ 0 ∧ c.1.natAbs - 1 < rels.length ∧
        0 ≤ c.2 ∧ c.2.toNat < nodes.length) →
      ln < nodes.length →
      segmentsFrom nodes rels ln cs = Option.some (specSegsFrom nodes rels ln cs)
  | [], ln => by intro _ _; rfl
  | (r, ni) :: cs, ln => fun hcs hln => by
    obtain ⟨hr0, hrel, hni0, hniL⟩ := hcs (r, ni) (List.mem_cons_self _ _)
    have hrest := fun c hc => hcs c (List.mem_cons_of_mem _ hc)
    have hrec := segmentsFrom_spec nodes rels cs ni.toNat hrest hniL
    have habs : r.toNat = r.natAbs ∨ r < 0 := by omega
    simp only [segmentsFrom, extractSegment, extractNodeIndex, if_pos hni0,
      Option.bind_eq_bind, Option.some_bind, if_neg hr0]
    by_cases hpos : 0 < r
    · have htn : r.toNat = r.natAbs := by omega
      simp only [if_pos hpos, htn,
        getElem?_eq_some_getD nodes ln default hln,
        getElem?_eq_some_getD nodes ni.toNat default hniL,
        getElem?_eq_some_getD rels (r.natAbs - 1) default hrel,
        Option.some_bind, hrec, specSegsFrom, if_pos hpos]
      simp [hrec]
    · simp only [if_neg hpos,
        getElem?_eq_some_getD nodes ln default hln,
        getElem?_eq_some_getD nodes ni.toNat default hniL,
        getElem?_eq_some_getD rels (r.natAbs - 1) default hrel,
        Option.some_bind, hrec, specSegsFrom, if_neg hpos]
      simp [hrec]

/-- C7: for every well-formed path, the node iterator enumerates
`nodes[0], nodes[indices[1]], nodes[indices[3]], ...`; each segment binds
`rels[|rel_index| − 1]` with start the previously visited node and end
`nodes[next_node_index]` when `rel_index` is positive and with start and
end swapped when negative; a zero `rel_index` is invalid (a panic, not a
segment). -/
theorem thm_C7_traversal {V : Type} (p : PathData V) (h : PathWF p) :
    pathNodesEnum p = Option.some (specPathNodes p) ∧
    pathSegments p = Option.some (specSegsFrom p.nodes p.rels 0 (chunksExact2 p.indices)) ∧
    (∀ (ln : Nat) (ni : Int), extractSegment p.nodes p.rels ln (0, ni) = Option.none) := by
  obtain ⟨hne, heven, hpairs⟩ := h
  have hpos : 0 < p.nodes.length := by
    cases hn : p.nodes with
    | nil => exact absurd hn hne
    | cons x xs => simp [hn]
  refine ⟨?_, ?_, ?_⟩
  · have hfirst : p.nodes[0]? = Option.some (p.nodes.getD 0 default) :=
      getElem?_eq_some_getD p.nodes 0 default hpos
    have hrest : (chunksExact2 p.indices).mapM
        (fun c => (extractNodeIndex c).bind (fun i => p.nodes[i]?)) =
        Option.some ((chunksExact2 p.indices).map
          (fun c => p.nodes.getD c.2.toNat default)) := by
      refine mapM_option_eq_map _ _ _ ?_
      intro c hc
      obtain ⟨_, _, hc0, hcL⟩ := hpairs c hc
      unfold extractNodeIndex
      rw [if_pos hc0, Option.some_bind]
      exact getElem?_eq_some_getD p.nodes c.2.toNat default hcL
    have hmap : (chunksExact2 p.indices).map
        (fun c => p.nodes.getD c.2.toNat default) =
        (List.range (p.indices.length / 2)).map
          (fun k => p.nodes.getD ((p.indices.getD (2 * k + 1) 0).toNat) default) :=
      chunksExact2_map_snd (fun i => p.nodes.getD i.toNat default) p.indices heven
    unfold pathNodesEnum
    simp only [Option.bind_eq_bind, Option.pure_def]
    rw [hfirst, Option.some_bind, hrest, Option.some_bind]
    unfold specPathNodes
    rw [hmap]
  · exact segmentsFrom_spec p.nodes p.rels (chunksExact2 p.indices) 0 hpairs hpos
  · intro ln ni
    simp only [extractSegment, extractNodeIndex]
    by_cases hni : (0 : Int) ≤ ni <;> simp [hni]

/-- A concrete two-node path with one forward relationship, for the C7
witness. -/
def c7Path : PathData Nat :=
  { nodes := [⟨10, [], ⟨[], 0⟩, Option.none⟩, ⟨20, [], ⟨[], 0⟩, Option.none⟩]
    rels := [⟨100, "R", ⟨[], 0⟩, Option.none⟩]
    indices := [1, 1] }

/-- Witness for C7: a concrete well-formed two-node path with one forward
relationship; the iterators agree with the claim-side description. -/
theorem thm_C7_traversal_witness :
    PathWF c7Path ∧
    pathNodesEnum c7Path = Option.some (specPathNodes c7Path) ∧
    pathSegments c7Path =
      Option.some (specSegsFrom c7Path.nodes c7Path.rels 0 (chunksExact2 c7Path.indices)) := by
  have hwf : PathWF c7Path := by
    unfold PathWF
    refine ⟨by decide, by decide, by decide⟩
  exact ⟨hwf, (thm_C7_traversal c7Path hwf).1, (thm_C7_traversal c7Path hwf).2.1⟩

/-- Driving the pulling loop against a well-formed transcript: with records
remaining, the next row is returned (in server order) and the rest of the
transcript is again well-formed; with no records remaining, the summary is
returned and the wire is fully drained. -/
theorem pullingLoop_transcript {α σ : Type} {msgs : List (WireMsg α σ)}
    {rs : List α} {sum : σ} (h : Transcript α σ msgs rs sum) :
    ∀ (s : RowStream α σ) (sent : List SentReq),
      (match rs with
        | r :: rs0 => ∃ ms' sent', pullingLoop s sent msgs =
            .ok (.row { fields := s.fields, record := r },
              { s with state := .pulling, buffer := [] },
              { incoming := ms', sent := sent' }) ∧ Transcript α σ ms' rs0 sum
        | [] => ∃ sent', pullingLoop s sent msgs =
            .ok (.summary sum,
              { s with state := .complete Option.none, buffer := [] },
              { incoming := [], sent := sent' })) := by
  induction h with
  | done s0 =>
    intro s sent
    exact ⟨sent, rfl⟩
  | record r h' ih =>
    intro s sent
    exact ⟨_, sent, rfl, h'⟩
  | hasMore h' ih =>
    intro s sent
    rename_i t rs0 sum0
    have hstep : pullingLoop s sent (.success .hasMore :: t) =
        pullingLoop { s with state := .pulling, buffer := [] }
          (sent ++ [streamPull s]) t := rfl
    cases rs0 with
    | nil =>
      obtain ⟨sent', heq⟩ := ih { s with state := .pulling, buffer := [] }
        (sent ++ [streamPull s])
      exact ⟨sent', by rw [hstep, heq]⟩
    | cons r rs1 =>
      obtain ⟨ms', sent', heq, ht⟩ := ih { s with state := .pulling, buffer := [] }
        (sent ++ [streamPull s])
      exact ⟨ms', sent', by rw [hstep, heq], ht⟩

/-- After the stream is complete without a stored summary, every call
returns `Done`. -/
theorem collectItems_done {α σ : Type} :
    ∀ (k : Nat) (s : RowStream α σ) (c : Conn α σ),
      s.state = .complete Option.none → s.buffer = [] →
      collectItems k s c = .ok (List.replicate k .done)
  | 0, _, _ => by intro _ _; rfl
  | k + 1, s, c => fun hst hb => by
    have hnext : nextOrSummary s c = .ok (.done, s, c) := by
      unfold nextOrSummary
      rw [hb, hst]
    have hrec := collectItems_done k s c hst hb
    simp only [collectItems, hnext, hrec, List.replicate]

/-- Running `k` calls of `next_or_summary` from an empty buffer in a
`Ready` or `Pulling` state against a well-formed transcript yields exactly
the expected items. -/
theorem collect_run {α σ : Type} :
    ∀ (k : Nat) {msgs : List (WireMsg α σ)} {rs : List α} {sum : σ},
      Transcript α σ msgs rs sum →
      ∀ (s : RowStream α σ) (c : Conn α σ), s.buffer = [] →
        (s.state = .ready ∨ s.state = .pulling) → c.incoming = msgs →
        collectItems k s c = .ok (expectedItems s.fields rs sum k)
  | 0, _, rs, _ => by
    intro _ _ _ _ _ _
    cases rs <;> rfl
  | k + 1, msgs, rs, sum => fun h s c hb hst hc => by
    obtain ⟨qid, fields, st, fs, buf⟩ := s
    obtain ⟨inc, sent⟩ := c
    simp only at hb hst hc
    subst hb
    subst hc
    rcases hst with rfl | rfl
    all_goals
      rcases hrs : rs with _ | ⟨r, rs0⟩ <;> subst hrs
    case inl.nil =>
      obtain ⟨sent', heq⟩ := pullingLoop_transcript h
        (⟨qid, fields, .pulling, fs, []⟩ : RowStream α σ)
        (sent ++ [streamPull ⟨qid, fields, .ready, fs, []⟩])
      have hdone := collectItems_done k
        (⟨qid, fields, .complete Option.none, fs, []⟩ : RowStream α σ)
        ⟨[], sent'⟩ rfl rfl
      simp only [collectItems, nextOrSummary]
      rw [heq]
      simp only [hdone, expectedItems]
    case inl.cons =>
      obtain ⟨ms', sent', heq, ht⟩ := pullingLoop_transcript h
        (⟨qid, fields, .pulling, fs, []⟩ : RowStream α σ)
        (sent ++ [streamPull ⟨qid, fields, .ready, fs, []⟩])
      have hrec := collect_run k ht
        (⟨qid, fields, .pulling, fs, []⟩ : RowStream α σ) ⟨ms', sent'⟩ rfl (Or.inr rfl) rfl
      simp only [collectItems, nextOrSummary]
      rw [heq]
      simp only [hrec, expectedItems]
    case inr.nil =>
      obtain ⟨sent', heq⟩ := pullingLoop_transcript h
        (⟨qid, fields, .pulling, fs, []⟩ : RowStream α σ) sent
      have hdone := collectItems_done k
        (⟨qid, fields, .complete Option.none, fs, []⟩ : RowStream α σ)
        ⟨[], sent'⟩ rfl rfl
      simp only [collectItems, nextOrSummary]
      rw [heq]
      simp only [hdone, expectedItems]
    case inr.cons =>
      obtain ⟨ms', sent', heq, ht⟩ := pullingLoop_transcript h
        (⟨qid, fields, .pulling, fs, []⟩ : RowStream α σ) sent
      have hrec := collect_run k ht
        (⟨qid, fields, .pulling, fs, []⟩ : RowStream α σ) ⟨ms', sent'⟩ rfl (Or.inr rfl) rfl
      simp only [collectItems, nextOrSummary]
      rw [heq]
      simp only [hrec, expectedItems]

/-- C1: for every wire interaction in which the server answers the PULL
requests with records `rs` in any batching (any number of intermediate
SUCCESS `has_more = true` messages) followed by a terminal SUCCESS with
summary `sum`, repeated calls to `next_or_summary` return exactly the rows
in server order, then the summary once, and `Done` from then on. -/
theorem thm_C1_stream_order {α σ : Type} (qid : Int) (fields : List String)
    (fetchSize : Nat) (sent0 : List SentReq) {msgs : List (WireMsg α σ)}
    {rs : List α} {sum : σ} (h : Transcript α σ msgs rs sum) (k : Nat) :
    collectItems k (RowStream.new α σ qid fields fetchSize)
        { incoming := msgs, sent := sent0 } =
      .ok (expectedItems fields rs sum k) :=
  collect_run k h (RowStream.new α σ qid fields fetchSize)
    { incoming := msgs, sent := sent0 } rfl (Or.inl rfl) rfl

/-- Witness for C1: a concrete transcript of two records in two batches
followed by a summary; five calls yield row 1, row 2, the summary, and
`Done` twice. -/
theorem thm_C1_stream_order_witness :
    collectItems 5 (RowStream.new Nat Nat 0 ["n"] 2)
        { incoming := [.record 1, .success .hasMore, .record 2, .success (.done 7)],
          sent := [] } =
      .ok (expectedItems ["n"] [1, 2] 7 5) :=
  thm_C1_stream_order 0 ["n"] 2 []
    (Transcript.record 1 (Transcript.hasMore (Transcript.record 2 (Transcript.done 7)))) 5

end Neo4rs
